import Mathlib

/-!
Shallow embedding of the portfolio analytics implemented inline in
`web/src/app/dashboard/page.tsx` of the composer-stats repository:
the day-over-day return derivation (`toDailyReturns`), the summary
statistics (`mean`, `variance`, `annualizedVol`, `cagr`, `sharpe`,
`downsideDeviation`), the drawdown scalars (`maxDrawdown`,
`currentDrawdown`), the drawdown curve (`toDrawdown`), and the
reward/risk (Calmar-style) ratio.  Functions that use only field
operations and order are stated generically over a linear ordered
field, so they can be run on `ℚ` and reasoned about on `ℝ`; the
functions that use `Math.sqrt` / `Math.pow` are embedded on `ℝ`.
-/

namespace ComposerStats

variable {α : Type} [LinearOrderedField α]

/-- `toDailyReturns` from the dashboard page: for `i = 1 .. vals.length-1`
it pushes `vals[i] / vals[i-1] - 1`, i.e. it pairs each element with its
successor. -/
def toDailyReturns (vals : List α) : List α :=
  List.zipWith (fun prev next => next / prev - 1) vals vals.tail

/-- `mean` from the dashboard page: `arr.length ? sum / arr.length : 0`. -/
def mean (arr : List α) : α :=
  if arr.length ≠ 0 then arr.sum / (arr.length : α) else 0

/-- `variance` from the dashboard page (sample variance, guarded):
`arr.length > 1 ? Σ (r - m)² / (arr.length - 1) : 0`. -/
def variance (arr : List α) (m : α) : α :=
  if 1 < arr.length then ((arr.map fun r => (r - m) * (r - m)).sum) / ((arr.length : α) - 1)
  else 0

/-- `sharpe` from the dashboard page: `av > 0 ? ar / av : 0`.  The same
helper is reused for the Sortino ratio with the downside deviation as
denominator. -/
def sharpe (ar av : α) : α :=
  if 0 < av then ar / av else 0

/-- One step of the `maxDrawdown` loop from the dashboard page:
update the running peak to `max(peak, v)`, compute `dd = v / peak - 1`,
and keep the most negative drawdown seen so far. -/
def maxDrawdownStep (s : α × α) (v : α) : α × α :=
  let peak := max s.1 v
  let dd := v / peak - 1
  (peak, if dd < s.2 then dd else s.2)

/-- `maxDrawdown` from the dashboard page: the loop starts with
`peak = vals[0] ?? 0` and `maxDd = 0` and runs `maxDrawdownStep` over
the whole series. -/
def maxDrawdown (vals : List α) : α :=
  (vals.foldl maxDrawdownStep (vals.headD 0, 0)).2

/-- The accumulator used when reading the most negative element off a
list: `if d < acc then d else acc` (the body of the `dd < maxDd` update
in `maxDrawdown`). -/
def runningMin (acc d : α) : α :=
  if d < acc then d else acc

/-- `currentDrawdown` from the dashboard page: `peak` is the maximum of
all values (seeded with `vals[0] ?? 0`), `last` is `vals[len-1] ?? 0`,
result `peak > 0 ? last / peak - 1 : 0`. -/
def currentDrawdown (vals : List α) : α :=
  let peak := vals.foldl (fun p v => max p v) (vals.headD 0)
  let last := vals.getLastD 0
  if 0 < peak then last / peak - 1 else 0

/-- Recursion underlying `toDrawdown`: the running peak is threaded
through the list, and each element is mapped to
`peak > 0 ? v / peak - 1 : 0`. -/
def toDrawdownAux (peak : α) : List α → List α
  | [] => []
  | v :: rest =>
      let p := max peak v
      (if 0 < p then v / p - 1 else 0) :: toDrawdownAux p rest

/-- `toDrawdown` from the dashboard page: peak starts at `vals[0] ?? 0`
and the whole list is mapped statefully. -/
def toDrawdown (vals : List α) : List α :=
  toDrawdownAux (vals.headD 0) vals

/-- `annualizedVol` from the dashboard page:
`sqrt(variance(daily, mean(daily))) * sqrt(252)`. -/
noncomputable def annualizedVol (daily : List ℝ) : ℝ :=
  Real.sqrt (variance daily (mean daily)) * Real.sqrt 252

/-- `cagr` from the dashboard page:
`vals.length > 1 ? (vals[len-1] / vals[0]) ^ (252 / vals.length) - 1 : 0`. -/
noncomputable def cagr (vals : List ℝ) : ℝ :=
  if 1 < vals.length then
    (vals.getLastD 0 / vals.headD 0) ^ ((252 : ℝ) / (vals.length : ℝ)) - 1
  else 0

/-- `downsideDeviation` from the dashboard page: over the subset of
negative returns, `sqrt(Σ r² / count) * sqrt(252)`; `0` when there is no
negative return. -/
noncomputable def downsideDeviation (daily : List ℝ) : ℝ :=
  let neg := daily.filter fun r => r < 0
  if neg.length = 0 then 0
  else Real.sqrt ((neg.map fun r => r * r).sum / (neg.length : ℝ)) * Real.sqrt 252

/-- `portRewardRisk` / `spyRewardRisk` from the dashboard page:
`|maxDrawdown(vals)| > 0 ? cagr(vals) / |maxDrawdown(vals)| : 0`. -/
noncomputable def rewardRisk (vals : List ℝ) : ℝ :=
  if 0 < |maxDrawdown vals| then cagr vals / |maxDrawdown vals| else 0

/-- Cumulative-maximum sequence of a valuation series (the running-peak
sequence of the spec's drawdown section): element `i` is the maximum of
the first `i+1` values. -/
def cumMaxAux (m : α) : List α → List α
  | [] => []
  | v :: rest => max m v :: cumMaxAux (max m v) rest

/-- The cumulative-maximum (running-peak) sequence of a series, seeded
with its first value. -/
def cumMax (vals : List α) : List α :=
  cumMaxAux (vals.headD 0) vals

/-- Modelled from the spec: the LookbackReturnCalculator lives in the
FastAPI backend (`api/`), which is not among the provided sources.  Per
the spec, each enumerated window key has a fixed trading-day offset
(today=1, 7d=7, 30d=30, 90d=90, 1y=365, total=full series length). -/
def lookbackOffsets (vals : List α) : List (String × Nat) :=
  [("today", 1), ("7d", 7), ("30d", 30), ("90d", 90), ("1y", 365), ("total", vals.length)]

/-- Modelled from the spec: the lookback return for a given trading-day
offset is `value[last] / value[last - offset] - 1`, and `0` when the
series has fewer points than the offset requires. -/
def lookbackReturn (vals : List α) (offset : Nat) : α :=
  if offset + 1 ≤ vals.length then
    vals.getLastD 0 / vals.getD (vals.length - 1 - offset) 0 - 1
  else 0

/-- The client-side defaulting in the dashboard page:
`stats.lookbacks?.portfolio?.[key] ?? 0` — an absent entry becomes 0. -/
def lookbackOrZero (entry : Option α) : α :=
  entry.getD 0

theorem toDailyReturns_cons₂ (a b : α) (l : List α) :
    toDailyReturns (a :: b :: l) = (b / a - 1) :: toDailyReturns (b :: l) := rfl

theorem toDailyReturns_length (vals : List α) :
    (toDailyReturns vals).length = vals.length - 1 := by
  simp [toDailyReturns]

theorem toDailyReturns_getD (vals : List α) :
    ∀ i : ℕ, i + 1 < vals.length →
      (toDailyReturns vals).getD i 0 = vals.getD (i + 1) 0 / vals.getD i 0 - 1 := by
  induction vals with
  | nil => intro i h; simp at h
  | cons a rest ih =>
      intro i h
      cases rest with
      | nil => simp only [List.length_cons, List.length_nil] at h; omega
      | cons b l =>
          cases i with
          | zero => simp [toDailyReturns_cons₂]
          | succ j =>
              have h' : j + 1 < (b :: l).length := by
                simp only [List.length_cons] at h ⊢; omega
              simpa [toDailyReturns_cons₂] using ih j h'

/-- C5: for every valuation series of length at least 2, the derived
return series has length `n - 1` and its `i`-th element is
`value[i+1] / value[i] - 1`. -/
theorem toDailyReturns_spec (vals : List ℚ) (h : 2 ≤ vals.length) :
    (toDailyReturns vals).length = vals.length - 1 ∧
    ∀ i : ℕ, i < vals.length - 1 →
      (toDailyReturns vals).getD i 0 = vals.getD (i + 1) 0 / vals.getD i 0 - 1 :=
  ⟨toDailyReturns_length vals, fun i hi => toDailyReturns_getD vals i (by omega)⟩

/-- Witness for C5 at the concrete series `[1, 2]`. -/
theorem toDailyReturns_spec_witness :
    (toDailyReturns [(1 : ℚ), 2]).length = [(1 : ℚ), 2].length - 1 ∧
    (toDailyReturns [(1 : ℚ), 2]).getD 0 0 =
      [(1 : ℚ), 2].getD 1 0 / [(1 : ℚ), 2].getD 0 0 - 1 := by
  obtain ⟨h1, h2⟩ := toDailyReturns_spec [(1 : ℚ), 2] (by decide)
  exact ⟨h1, h2 0 (by decide)⟩

/-- C2 counterexample: on a series containing a non-positive value the
return derivation does not fail — it returns an ordinary return series
(there is no error path in `toDailyReturns` at all). -/
theorem toDailyReturns_no_error_on_nonpositive :
    toDailyReturns [(-1 : ℚ), 2] = [-3] := by
  norm_num [toDailyReturns]

/-- C2 (amended): `toDailyReturns` performs no validation and never
fails: with fewer than 2 points it yields the empty return series, and
non-positive values are passed through the ratio formula unchanged. -/
theorem toDailyReturns_total :
    (∀ vals : List ℚ, vals.length < 2 → toDailyReturns vals = []) ∧
    (∀ v w : ℚ, toDailyReturns [v, w] = [w / v - 1]) := by
  constructor
  · intro vals h
    cases vals with
    | nil => rfl
    | cons a rest =>
        cases rest with
        | nil => rfl
        | cons b l => simp only [List.length_cons] at h; omega
  · intro v w; rfl

/-- Witness for C2 (amended) at the concrete inputs `[5]` and `[2, 3]`. -/
theorem toDailyReturns_total_witness :
    toDailyReturns [(5 : ℚ)] = [] ∧ toDailyReturns [(2 : ℚ), 3] = [3 / 2 - 1] :=
  ⟨toDailyReturns_total.1 [5] (by decide), toDailyReturns_total.2 2 3⟩

theorem toDrawdownAux_chain :
    ∀ (l : List α) (peak : α), 0 < peak → (∀ v ∈ l, 0 < v) →
      List.Chain (· ≤ ·) peak l → toDrawdownAux peak l = List.replicate l.length 0 := by
  intro l
  induction l with
  | nil => intro peak _ _ _; rfl
  | cons v rest ih =>
      intro peak _ hpos hchain
      rcases List.chain_cons.mp hchain with ⟨hle, hchain'⟩
      have hv : 0 < v := hpos v (List.mem_cons_self v rest)
      simp only [toDrawdownAux, max_eq_right hle, List.length_cons, List.replicate_succ]
      rw [if_pos hv, div_self (ne_of_gt hv), sub_self,
        ih v hv (fun w hw => hpos w (List.mem_cons_of_mem v hw)) hchain']

theorem maxDrawdown_foldl_bounds :
    ∀ (l : List α) (p m : α), (∀ v ∈ l, 0 < v) → -1 ≤ m → m ≤ 0 →
      -1 ≤ (l.foldl maxDrawdownStep (p, m)).2 ∧ (l.foldl maxDrawdownStep (p, m)).2 ≤ 0 := by
  intro l
  induction l with
  | nil => intro p m _ h1 h2; exact ⟨h1, h2⟩
  | cons v rest ih =>
      intro p m hpos h1 h2
      have hv : 0 < v := hpos v (List.mem_cons_self v rest)
      have hpk : 0 < max p v := lt_of_lt_of_le hv (le_max_right p v)
      have hdd_pos : 0 < v / max p v := div_pos hv hpk
      have hdd_le : v / max p v ≤ 1 := (div_le_one hpk).mpr (le_max_right p v)
      simp only [List.foldl_cons, maxDrawdownStep]
      refine ih (max p v) _ (fun w hw => hpos w (List.mem_cons_of_mem v hw)) ?_ ?_
      · by_cases hc : v / max p v - 1 < m
        · rw [if_pos hc]; linarith
        · rw [if_neg hc]; exact h1
      · by_cases hc : v / max p v - 1 < m
        · rw [if_pos hc]; linarith
        · rw [if_neg hc]; exact h2

/-- C4: a monotonically non-decreasing valuation series of positive
values yields an all-zero drawdown curve, and for every valuation
series of positive values `maxDrawdown` lies in `[-1, 0]`. -/
theorem drawdown_monotone_and_bounds :
    (∀ vals : List ℚ, (∀ v ∈ vals, 0 < v) → vals.Chain' (· ≤ ·) →
      toDrawdown vals = List.replicate vals.length 0) ∧
    (∀ vals : List ℚ, (∀ v ∈ vals, 0 < v) →
      -1 ≤ maxDrawdown vals ∧ maxDrawdown vals ≤ 0) := by
  constructor
  · intro vals hpos hchain
    cases vals with
    | nil => rfl
    | cons a l =>
        have ha : 0 < a := hpos a (List.mem_cons_self a l)
        have htail : List.Chain (· ≤ ·) a l := hchain
        have hch : List.Chain (· ≤ ·) a (a :: l) :=
          List.chain_cons.mpr ⟨le_refl a, htail⟩
        exact toDrawdownAux_chain (a :: l) a ha hpos hch
  · intro vals hpos
    exact maxDrawdown_foldl_bounds vals (vals.headD 0) 0 hpos (by norm_num) le_rfl

/-- Witness for C4 at the concrete series `[1, 2]` and `[1, 2, 1]`. -/
theorem drawdown_monotone_and_bounds_witness :
    toDrawdown [(1 : ℚ), 2] = List.replicate [(1 : ℚ), 2].length 0 ∧
    (-1 ≤ maxDrawdown [(1 : ℚ), 2, 1] ∧ maxDrawdown [(1 : ℚ), 2, 1] ≤ 0) :=
  ⟨drawdown_monotone_and_bounds.1 [(1 : ℚ), 2] (by decide) (by norm_num [List.chain'_cons]),
   drawdown_monotone_and_bounds.2 [(1 : ℚ), 2, 1] (by decide)⟩

theorem foldl_runningMin_le_init :
    ∀ (l : List α) (m : α), l.foldl runningMin m ≤ m := by
  intro l
  induction l with
  | nil => intro m; exact le_rfl
  | cons d rest ih =>
      intro m
      refine le_trans (ih (runningMin m d)) ?_
      unfold runningMin
      by_cases hc : d < m
      · rw [if_pos hc]; exact le_of_lt hc
      · rw [if_neg hc]

theorem foldl_runningMin_le_mem :
    ∀ (l : List α) (m x : α), x ∈ l → l.foldl runningMin m ≤ x := by
  intro l
  induction l with
  | nil => intro m x hx; exact absurd hx (List.not_mem_nil x)
  | cons d rest ih =>
      intro m x hx
      rcases List.mem_cons.mp hx with rfl | hx'
      · refine le_trans (foldl_runningMin_le_init rest (runningMin m x)) ?_
        unfold runningMin
        by_cases hc : x < m
        · rw [if_pos hc]
        · rw [if_neg hc]; exact le_of_not_lt hc
      · exact ih (runningMin m d) x hx'

theorem foldl_runningMin_mem :
    ∀ (l : List α) (m : α), l.foldl runningMin m = m ∨ l.foldl runningMin m ∈ l := by
  intro l
  induction l with
  | nil => intro m; exact Or.inl rfl
  | cons d rest ih =>
      intro m
      rcases ih (runningMin m d) with h | h
      · rw [List.foldl_cons, h]
        unfold runningMin
        by_cases hc : d < m
        · rw [if_pos hc]; exact Or.inr (List.mem_cons_self d rest)
        · rw [if_neg hc]; exact Or.inl rfl
      · exact Or.inr (List.mem_cons_of_mem d h)

theorem maxDrawdown_foldl_toDrawdownAux :
    ∀ (l : List α) (p m : α), 0 < p →
      (l.foldl maxDrawdownStep (p, m)).2 = (toDrawdownAux p l).foldl runningMin m := by
  intro l
  induction l with
  | nil => intro p m _; rfl
  | cons v rest ih =>
      intro p m hp
      have hpk : 0 < max p v := lt_of_lt_of_le hp (le_max_left p v)
      simp only [List.foldl_cons, maxDrawdownStep, toDrawdownAux, if_pos hpk]
      rw [ih (max p v) _ hpk]
      rfl

theorem toDrawdown_cons (a : α) (l : List α) (ha : 0 < a) :
    toDrawdown (a :: l) = 0 :: toDrawdownAux a l := by
  simp only [toDrawdown, List.headD_cons, toDrawdownAux, max_self]
  rw [if_pos ha, div_self (ne_of_gt ha), sub_self]

theorem le_foldl_max :
    ∀ (l : List α) (p : α), p ≤ l.foldl (fun x v => max x v) p := by
  intro l
  induction l with
  | nil => intro p; exact le_rfl
  | cons v rest ih =>
      intro p
      exact le_trans (le_max_left p v) (ih (max p v))

theorem toDrawdownAux_getLast? :
    ∀ (l : List α) (p : α), 0 < p → l ≠ [] →
      (toDrawdownAux p l).getLast? =
        some (l.getLastD 0 / l.foldl (fun x v => max x v) p - 1) := by
  intro l
  induction l with
  | nil => intro p _ h; exact absurd rfl h
  | cons v rest ih =>
      intro p hp _
      have hpk : 0 < max p v := lt_of_lt_of_le hp (le_max_left p v)
      cases rest with
      | nil =>
          simp only [toDrawdownAux, if_pos hpk, List.foldl_cons, List.foldl_nil]
          rfl
      | cons w rest' =>
          have hrec := ih (max p v) hpk (by simp)
          simp only [toDrawdownAux, if_pos hpk] at hrec ⊢
          rw [List.getLast?_cons_cons]
          · rw [hrec]
            rfl

/-- C10: the scalar `maxDrawdown` is the minimum element of the curve
produced by `toDrawdown`, and `currentDrawdown` is its last element,
for every non-empty valuation series of positive values. -/
theorem maxDrawdown_currentDrawdown_refine_toDrawdown (vals : List ℚ)
    (hne : vals ≠ []) (hpos : ∀ v ∈ vals, 0 < v) :
    (maxDrawdown vals ∈ toDrawdown vals ∧
      ∀ d ∈ toDrawdown vals, maxDrawdown vals ≤ d) ∧
    (toDrawdown vals).getLastD 0 = currentDrawdown vals := by
  obtain ⟨a, l, rfl⟩ := List.exists_cons_of_ne_nil hne
  have ha : 0 < a := hpos a (List.mem_cons_self a l)
  have hmd : maxDrawdown (a :: l) = (toDrawdown (a :: l)).foldl runningMin 0 := by
    simp only [maxDrawdown, toDrawdown, List.headD_cons]
    exact maxDrawdown_foldl_toDrawdownAux (a :: l) a 0 ha
  refine ⟨⟨?_, ?_⟩, ?_⟩
  · rcases foldl_runningMin_mem (toDrawdown (a :: l)) 0 with h | h
    · rw [hmd, h, toDrawdown_cons a l ha]
      exact List.mem_cons_self 0 _
    · rw [hmd]; exact h
  · intro d hd
    rw [hmd]
    exact foldl_runningMin_le_mem _ 0 d hd
  · have hpk : (0 : ℚ) < (a :: l).foldl (fun x v => max x v) a :=
      lt_of_lt_of_le ha (le_foldl_max (a :: l) a)
    have hgl := toDrawdownAux_getLast? (a :: l) a ha (by simp)
    simp only [currentDrawdown, List.headD_cons]
    rw [if_pos hpk, toDrawdown, List.headD_cons, List.getLastD_eq_getLast?, hgl]
    rfl

/-- Witness for C10 at the concrete series `[2, 1]`. -/
theorem maxDrawdown_currentDrawdown_refine_toDrawdown_witness :
    maxDrawdown [(2 : ℚ), 1] ∈ toDrawdown [(2 : ℚ), 1] ∧
    (toDrawdown [(2 : ℚ), 1]).getLastD 0 = currentDrawdown [(2 : ℚ), 1] :=
  ⟨(maxDrawdown_currentDrawdown_refine_toDrawdown [(2 : ℚ), 1] (by decide)
      (by decide)).1.1,
   (maxDrawdown_currentDrawdown_refine_toDrawdown [(2 : ℚ), 1] (by decide)
      (by decide)).2⟩

theorem peak_recovery_aux :
    ∀ (l : List α) (p : α), (∀ v ∈ l, 0 < v) →
      List.zipWith (fun v d => v / (1 + d)) l (toDrawdownAux p l) = cumMaxAux p l := by
  intro l
  induction l with
  | nil => intro p _; rfl
  | cons v rest ih =>
      intro p hpos
      have hv : 0 < v := hpos v (List.mem_cons_self v rest)
      have hpk : 0 < max p v := lt_of_lt_of_le hv (le_max_right p v)
      simp only [toDrawdownAux, cumMaxAux, if_pos hpk, List.zipWith_cons_cons]
      refine List.cons_eq_cons.mpr ⟨?_, ?_⟩
      · have h1 : 1 + (v / max p v - 1) = v / max p v := by ring
        rw [h1, div_div_eq_mul_div, mul_comm, mul_div_assoc, div_self (ne_of_gt hv),
          mul_one]
      · exact ih (max p v) (fun w hw => hpos w (List.mem_cons_of_mem v hw))

/-- C6 counterexample: the drawdown curve together with only the first
value does not determine the running-peak sequence; the series `[1, 2]`
and `[1, 3]` have identical drawdown curves and first values but
different cumulative maxima, so no reconstruction function exists. -/
theorem peak_not_recoverable_from_drawdown_and_first :
    ¬ ∃ g : List ℚ → ℚ → List ℚ,
        ∀ vals : List ℚ, (∀ v ∈ vals, 0 < v) →
          g (toDrawdown vals) (vals.headD 0) = cumMax vals := by
  rintro ⟨g, hg⟩
  have h1 := hg [1, 2] (by decide)
  have h2 := hg [1, 3] (by decide)
  have e1 : toDrawdown [(1 : ℚ), 2] = [0, 0] := by
    norm_num [toDrawdown, toDrawdownAux, max_def]
  have e2 : toDrawdown [(1 : ℚ), 3] = [0, 0] := by
    norm_num [toDrawdown, toDrawdownAux, max_def]
  have e3 : cumMax [(1 : ℚ), 2] = [1, 2] := by
    norm_num [cumMax, cumMaxAux, max_def]
  have e4 : cumMax [(1 : ℚ), 3] = [1, 3] := by
    norm_num [cumMax, cumMaxAux, max_def]
  rw [e1, e3, List.headD_cons] at h1
  rw [e2, e4, List.headD_cons] at h2
  have : ([1, 2] : List ℚ) = [1, 3] := h1.symm.trans h2
  simp at this

/-- C6 (amended): combining the output drawdown series with the original
valuation series pointwise as `v / (1 + d)` recovers the
cumulative-maximum (running-peak) sequence exactly. -/
theorem peak_recovered_from_drawdown_and_values (vals : List ℚ)
    (hpos : ∀ v ∈ vals, 0 < v) :
    List.zipWith (fun v d => v / (1 + d)) vals (toDrawdown vals) = cumMax vals :=
  peak_recovery_aux vals (vals.headD 0) hpos

/-- Witness for C6 (amended) at the concrete series `[1, 2, 1]`. -/
theorem peak_recovered_from_drawdown_and_values_witness :
    List.zipWith (fun v d => v / (1 + d)) [(1 : ℚ), 2, 1]
        (toDrawdown [(1 : ℚ), 2, 1]) = cumMax [(1 : ℚ), 2, 1] :=
  peak_recovered_from_drawdown_and_values [(1 : ℚ), 2, 1] (by decide)

/-- C1 counterexample: on the two-point series `[1, 2]` there is `n = 1`
return observation, so the claimed formula gives `(2/1) ^ (252/1) - 1`;
the code computes `(2/1) ^ (252/2) - 1` because its exponent divides by
the number of valuation points, not return observations. -/
theorem cagr_counterexample_two_points :
    cagr [(1 : ℝ), 2] ≠ ((2 : ℝ) / 1) ^ ((252 : ℝ) / 1) - 1 := by
  have hc : cagr [(1 : ℝ), 2] = (2 : ℝ) ^ (126 : ℝ) - 1 := by
    rw [cagr, if_pos (by norm_num)]
    norm_num [List.getLastD, List.headD]
  have he : ((2 : ℝ) / 1) ^ ((252 : ℝ) / 1) = (2 : ℝ) ^ (252 : ℝ) := by norm_num
  have hlt : (2 : ℝ) ^ (126 : ℝ) < (2 : ℝ) ^ (252 : ℝ) :=
    (Real.rpow_lt_rpow_left_iff (by norm_num)).mpr (by norm_num)
  rw [hc, he]
  intro h
  have h' : (2 : ℝ) ^ (126 : ℝ) = (2 : ℝ) ^ (252 : ℝ) := by linarith
  exact absurd h' (ne_of_lt hlt)

/-- C1 (amended): the computed CAGR is `(last/first) ^ (252/m) - 1`
where `m = n + 1` is the number of valuation points, `n` the number of
return observations. -/
theorem cagr_exponent_uses_point_count (vals : List ℝ) (h : 1 < vals.length) :
    cagr vals =
      (vals.getLastD 0 / vals.headD 0) ^
        ((252 : ℝ) / (((toDailyReturns vals).length + 1 : ℕ) : ℝ)) - 1 := by
  have hlen : (toDailyReturns vals).length + 1 = vals.length := by
    rw [toDailyReturns_length]; omega
  rw [cagr, if_pos h, hlen]

/-- Witness for C1 (amended) at the concrete series `[1, 2]`. -/
theorem cagr_exponent_uses_point_count_witness :
    cagr [(1 : ℝ), 2] =
      ([(1 : ℝ), 2].getLastD 0 / [(1 : ℝ), 2].headD 0) ^
        ((252 : ℝ) / (((toDailyReturns [(1 : ℝ), 2]).length + 1 : ℕ) : ℝ)) - 1 :=
  cagr_exponent_uses_point_count [(1 : ℝ), 2] (by simp)

/-- C3: every ratio uses an explicit zero-denominator guard: the Sharpe
helper returns 0 on a zero denominator (hence the Sharpe and Sortino
ratios do), and the reward/risk ratio returns 0 when the maximum
drawdown is 0.  All are total real-valued functions. -/
theorem ratio_zero_denominator_sentinel (ar : ℝ) (vals daily : List ℝ) :
    sharpe ar 0 = 0 ∧
    (downsideDeviation daily = 0 → sharpe ar (downsideDeviation daily) = 0) ∧
    (maxDrawdown vals = 0 → rewardRisk vals = 0) := by
  refine ⟨?_, ?_, ?_⟩
  · simp [sharpe]
  · intro h; rw [h]; simp [sharpe]
  · intro h; simp [rewardRisk, h]

/-- Witness for C3 at concrete inputs with zero denominators. -/
theorem ratio_zero_denominator_sentinel_witness :
    sharpe (1 : ℝ) 0 = 0 ∧
    sharpe (1 : ℝ) (downsideDeviation ([] : List ℝ)) = 0 ∧
    rewardRisk ([] : List ℝ) = 0 := by
  obtain ⟨h1, h2, h3⟩ := ratio_zero_denominator_sentinel (1 : ℝ) [] []
  have hd : downsideDeviation ([] : List ℝ) = 0 := by
    simp [downsideDeviation]
  have hm : maxDrawdown ([] : List ℝ) = 0 := rfl
  exact ⟨h1, h2 hd, h3 hm⟩

theorem toDailyReturns_replicate (n : ℕ) (c : α) :
    toDailyReturns (List.replicate n c) = List.replicate (n - 1) (c / c - 1) := by
  induction n with
  | zero => rfl
  | succ m ih =>
      cases m with
      | zero => rfl
      | succ k =>
          have hstep :
              List.replicate (k + 2) c = c :: c :: List.replicate k c := by
            simp [List.replicate_succ]
          rw [hstep, toDailyReturns_cons₂]
          have hprev : (c :: List.replicate k c) = List.replicate (k + 1) c := by
            simp [List.replicate_succ]
          rw [hprev, ih]
          simp [List.replicate_succ]

theorem mean_replicate_zero (k : ℕ) : mean (List.replicate k (0 : ℝ)) = 0 := by
  simp [mean, List.sum_replicate]

theorem variance_replicate_zero (k : ℕ) :
    variance (List.replicate k (0 : ℝ)) (mean (List.replicate k (0 : ℝ))) = 0 := by
  rw [mean_replicate_zero]
  simp [variance, List.sum_replicate, List.map_replicate]

/-- C7: a constant positive valuation series with at least 2 points
yields `annualizedVol = 0` and `sharpe = 0`. -/
theorem constant_series_vol_sharpe_zero (c : ℝ) (n : ℕ) (hc : 0 < c) (_hn : 2 ≤ n) :
    annualizedVol (toDailyReturns (List.replicate n c)) = 0 ∧
    sharpe (cagr (List.replicate n c))
      (annualizedVol (toDailyReturns (List.replicate n c))) = 0 := by
  have hret : toDailyReturns (List.replicate n c) = List.replicate (n - 1) (0 : ℝ) := by
    rw [toDailyReturns_replicate, div_self (ne_of_gt hc), sub_self]
  have hvol : annualizedVol (toDailyReturns (List.replicate n c)) = 0 := by
    rw [hret, annualizedVol, variance_replicate_zero, Real.sqrt_zero, zero_mul]
  exact ⟨hvol, by rw [hvol]; simp [sharpe]⟩

/-- Witness for C7 at the constant series `[1, 1]`. -/
theorem constant_series_vol_sharpe_zero_witness :
    annualizedVol (toDailyReturns (List.replicate 2 (1 : ℝ))) = 0 ∧
    sharpe (cagr (List.replicate 2 (1 : ℝ)))
      (annualizedVol (toDailyReturns (List.replicate 2 (1 : ℝ)))) = 0 :=
  constant_series_vol_sharpe_zero 1 2 one_pos (le_refl 2)

/-- C8: the downside deviation is `sqrt(mean of squared negative
returns) * sqrt(252)` over the subset of negative returns (0 when there
is none), it is never negative, and the Sortino ratio is
`CAGR / downsideDeviation` when the latter is positive and 0 when it is
zero. -/
theorem downsideDeviation_sortino_spec (vals daily : List ℝ) :
    downsideDeviation daily =
      Real.sqrt (mean ((daily.filter fun r => r < 0).map fun r => r * r)) *
        Real.sqrt 252 ∧
    ((daily.filter fun r => r < 0) = [] → downsideDeviation daily = 0) ∧
    0 ≤ downsideDeviation daily ∧
    (0 < downsideDeviation daily →
      sharpe (cagr vals) (downsideDeviation daily) =
        cagr vals / downsideDeviation daily) ∧
    (downsideDeviation daily = 0 → sharpe (cagr vals) (downsideDeviation daily) = 0) := by
  have hform : downsideDeviation daily =
      Real.sqrt (mean ((daily.filter fun r => r < 0).map fun r => r * r)) *
        Real.sqrt 252 := by
    by_cases h : (daily.filter fun r => r < 0).length = 0
    · have hnil : (daily.filter fun r => r < 0) = [] := List.length_eq_zero.mp h
      simp [downsideDeviation, h, hnil, mean]
    · simp only [downsideDeviation, if_neg h, mean, List.length_map, ne_eq, h,
        not_false_iff, if_pos, if_false]
  refine ⟨hform, ?_, ?_, ?_, ?_⟩
  · intro h
    simp [downsideDeviation, h]
  · rw [hform]
    exact mul_nonneg (Real.sqrt_nonneg _) (Real.sqrt_nonneg _)
  · intro h
    rw [sharpe, if_pos h]
  · intro h
    rw [h]
    simp [sharpe]

/-- Witness for C8 at a return series with no negative return. -/
theorem downsideDeviation_sortino_spec_witness :
    downsideDeviation ([] : List ℝ) = 0 ∧
    sharpe (cagr [(1 : ℝ), 2]) (downsideDeviation ([] : List ℝ)) = 0 := by
  obtain ⟨-, h2, -, -, h5⟩ := downsideDeviation_sortino_spec [(1 : ℝ), 2] []
  have hf : (([] : List ℝ).filter fun r => r < 0) = [] := rfl
  exact ⟨h2 hf, h5 (h2 hf)⟩

/-- C9: the lookback return for any enumerated window key is 0 when the
series has fewer points than the key's trading-day offset requires, and
an absent lookback entry is defaulted to 0 by the dashboard. -/
theorem lookback_insufficient_history_zero (vals : List ℚ) (key : String)
    (offset : ℕ) (_hmem : (key, offset) ∈ lookbackOffsets vals)
    (hshort : vals.length < offset + 1) :
    lookbackReturn vals offset = 0 ∧ lookbackOrZero (none : Option ℚ) = 0 := by
  refine ⟨?_, rfl⟩
  rw [lookbackReturn, if_neg (by omega)]

/-- Witness for C9: the 7-day lookback on a one-point series is 0. -/
theorem lookback_insufficient_history_zero_witness :
    lookbackReturn [(1 : ℚ)] 7 = 0 ∧ lookbackOrZero (none : Option ℚ) = 0 :=
  lookback_insufficient_history_zero [1] "7d" 7 (by decide) (by decide)

end ComposerStats
